import Mathlib

/-!
Verification of the 3D NAND flash storage optimization tool's core subsystems:
a shallow embedding in Lean 4 of the caching system, wear-leveling engine,
bad-block manager, BCH codec, ECC facade and the NAND controller's
write/error-handling paths, together with proofs and refutations of the
specified properties.

Conventions:
* Python `bytes` become `List Nat` with each element < 256 where relevant.
* Python dictionaries (`dict` / `OrderedDict`) become association lists in
  insertion order; updating an existing key keeps its position (CPython dict
  semantics), `OrderedDict.move_to_end` reinserts at the end.
* Python exceptions become `Except`/`Option` results; a raised exception
  carries the state as mutated up to the raise point.
* `time.time()` values are arbitrary `Nat` timestamps supplied per operation.
-/

namespace NandSim

/-! ### Association lists in Python dict order -/

/-- `d[k]` lookup returning `Option`. -/
def alGet (l : List (Nat × Nat)) (k : Nat) : Option Nat :=
  match l with
  | [] => none
  | (k₀, v₀) :: t => if k₀ = k then some v₀ else alGet t k

/-- `k in d`. -/
def alMem (l : List (Nat × Nat)) (k : Nat) : Bool :=
  match l with
  | [] => false
  | (k₀, _) :: t => if k₀ = k then true else alMem t k

/-- `d[k] = v`: update in place if present (keeping dict position), else append. -/
def alSet (l : List (Nat × Nat)) (k v : Nat) : List (Nat × Nat) :=
  match l with
  | [] => [(k, v)]
  | (k₀, v₀) :: t => if k₀ = k then (k, v) :: t else (k₀, v₀) :: alSet t k v

/-- `del d[k]` (no-op when the key is absent; callers model `KeyError` themselves). -/
def alErase (l : List (Nat × Nat)) (k : Nat) : List (Nat × Nat) :=
  match l with
  | [] => []
  | (k₀, v₀) :: t => if k₀ = k then t else (k₀, v₀) :: alErase t k

/-- `OrderedDict.move_to_end(k)`: remove and reinsert at the end (key assumed present). -/
def alMoveToEnd (l : List (Nat × Nat)) (k : Nat) : List (Nat × Nat) :=
  match alGet l k with
  | none => l
  | some v => alErase l k ++ [(k, v)]

/-- `defaultdict(int)` increment: `d[k] += 1`. -/
def alBump (l : List (Nat × Nat)) (k : Nat) : List (Nat × Nat) :=
  match alGet l k with
  | none => l ++ [(k, 1)]
  | some v => alSet l k (v + 1)

/-- Python `min(d, key=lambda k: d[k])`: first key attaining the minimal value
(dict iteration order breaks ties), `none` on an empty dict (`ValueError`). -/
def alArgmin (l : List (Nat × Nat)) : Option Nat :=
  match l with
  | [] => none
  | (k₀, v₀) :: t =>
    match alArgmin t with
    | none => some k₀
    | some k₁ =>
      match alGet t k₁ with
      | none => some k₀
      | some v₁ => if v₁ < v₀ then some k₁ else some k₀

theorem alErase_length_le (l : List (Nat × Nat)) (k : Nat) :
    (alErase l k).length ≤ l.length := by
  induction l with
  | nil => simp [alErase]
  | cons hd t ih =>
    simp only [alErase]
    split
    · exact Nat.le_succ _
    · simpa using Nat.succ_le_succ ih

theorem alSet_length_le (l : List (Nat × Nat)) (k v : Nat) :
    (alSet l k v).length ≤ l.length + 1 := by
  induction l with
  | nil => simp [alSet]
  | cons hd t ih =>
    simp only [alSet]
    split
    · simp
    · simpa using Nat.succ_le_succ ih

theorem alSet_length_of_mem (l : List (Nat × Nat)) (k v : Nat) (h : alMem l k = true) :
    (alSet l k v).length = l.length := by
  induction l with
  | nil => simp [alMem] at h
  | cons hd t ih =>
    simp only [alMem] at h
    simp only [alSet]
    by_cases hk : hd.1 = k
    · simp [hk]
    · simp only [hk, if_false] at h ⊢
      simp [ih h]

theorem alMoveToEnd_length (l : List (Nat × Nat)) (k : Nat) :
    (alMoveToEnd l k).length ≤ l.length := by
  unfold alMoveToEnd
  cases hg : alGet l k with
  | none => exact le_refl _
  | some v =>
    simp only [List.length_append, List.length_cons, List.length_nil]
    have : (alErase l k).length + 1 ≤ l.length := by
      induction l with
      | nil => simp [alGet] at hg
      | cons hd t ih =>
        simp only [alGet] at hg
        simp only [alErase]
        by_cases hk : hd.1 = k
        · simp only [hk, if_pos rfl] at hg ⊢
          simp
        · simp only [hk, if_false] at hg ⊢
          simpa using Nat.succ_le_succ (ih hg)
    simpa using this

theorem alGet_mem_of_some (l : List (Nat × Nat)) (k v : Nat) (h : alGet l k = some v) :
    alMem l k = true := by
  induction l with
  | nil => simp [alGet] at h
  | cons hd t ih =>
    simp only [alGet] at h
    simp only [alMem]
    by_cases hk : hd.1 = k
    · simp [hk]
    · simp only [hk, if_false] at h ⊢
      exact ih h

theorem alMoveToEnd_length_of_mem (l : List (Nat × Nat)) (k : Nat) (h : alMem l k = true) :
    (alMoveToEnd l k).length = l.length := by
  unfold alMoveToEnd
  cases hg : alGet l k with
  | none =>
    rfl
  | some v =>
    simp only [List.length_append, List.length_cons, List.length_nil]
    have : (alErase l k).length + 1 = l.length := by
      induction l with
      | nil => simp [alGet] at hg
      | cons hd t ih =>
        simp only [alGet] at hg
        simp only [alErase]
        by_cases hk : hd.1 = k
        · simp [hk]
        · simp only [hk, if_false] at hg ⊢
          simp only [alMem, hk, if_false] at h
          have h2 := ih h hg
          simp only [List.length_cons]
          omega
    simpa using this

/-! ### Caching system (`src/performance_optimization/caching.py`)

Keys and values are `Nat`; Python truthiness of a key (`if key_to_evict:`)
is `k ≠ 0`.  `max_size_bytes` is `None` (byte-size tracking disabled) and
`on_evict` is `None`, matching the controller's configuration; the
hit/miss/expiration counters are omitted (no claim mentions them), the
eviction counter is kept. -/

inductive EvictionPolicy
  | LRU | LFU | FIFO | TTL
deriving DecidableEq, Repr

structure CacheState where
  capacity : Nat
  policy : EvictionPolicy
  ttl : Option Nat
  cache : List (Nat × Nat)        -- `self.cache` (OrderedDict)
  accessCount : List (Nat × Nat)  -- `self.access_count`
  insertTime : List (Nat × Nat)   -- `self.insert_time`
  expireTime : List (Nat × Nat)   -- `self.expire_time`
  evictions : Nat                 -- `self.stats["evictions"]`
deriving DecidableEq, Repr

/-- `CachingSystem(capacity, policy, ttl)` with an empty store. -/
def initCache (capacity : Nat) (policy : EvictionPolicy) (ttl : Option Nat) : CacheState :=
  { capacity := capacity, policy := policy, ttl := ttl,
    cache := [], accessCount := [], insertTime := [], expireTime := [], evictions := 0 }

/-- `_is_expired(key)` at clock value `now` (`now > expire_time[key]`). -/
def isExpired (s : CacheState) (k now : Nat) : Bool :=
  match alGet s.expireTime k with
  | some e => e < now
  | none => false

/-- `_cleanup_metadata(key)`. -/
def cleanupMetadata (s : CacheState) (k : Nat) : CacheState :=
  { s with accessCount := alErase s.accessCount k,
           insertTime := alErase s.insertTime k,
           expireTime := alErase s.expireTime k }

/-- `_remove_item(key)` (the key is checked for membership by the caller or here). -/
def removeItem (s : CacheState) (k : Nat) : CacheState :=
  if alMem s.cache k then cleanupMetadata { s with cache := alErase s.cache k } k
  else s

/-- The tail of `_evict_one`: metadata cleanup and the eviction counter, guarded
by Python truthiness of the evicted key (`if key_to_evict:`). -/
def evictFinish (s : CacheState) (k : Nat) : CacheState :=
  if k ≠ 0 then { cleanupMetadata s k with evictions := s.evictions + 1 }
  else s

/-- `_evict_one()`.  `.error ()` models a raised exception (`KeyError` from
`del self.cache[key]` on a stale key, or `ValueError` from `min` of an empty
dict), which leaves the state unchanged.  Note there is no branch for the
`TTL` policy, so under that policy nothing is ever evicted. -/
def evictOne (s : CacheState) : Except Unit CacheState :=
  match s.cache with
  | [] => .ok s
  | (k₀, _) :: rest =>
    match s.policy with
    | .LRU =>
      -- `self.cache.popitem(last=False)` removes the front entry
      .ok (evictFinish { s with cache := rest } k₀)
    | .FIFO =>
      match alArgmin s.insertTime with
      | none => .error ()   -- `min` over an empty dict raises `ValueError`
      | some k =>
        if alMem s.cache k then .ok (evictFinish { s with cache := alErase s.cache k } k)
        else .error ()      -- `del self.cache[k]` raises `KeyError`
    | .LFU =>
      match alArgmin s.accessCount with
      | none => .ok s       -- `if self.access_count:` is false: nothing evicted
      | some k =>
        if alMem s.cache k then
          .ok (evictFinish
                { s with cache := alErase s.cache k,
                         accessCount := alErase s.accessCount k } k)
        else .error ()
    | .TTL => .ok s         -- no eviction branch exists for TTL

/-- Result of the `while` loop in `_ensure_capacity`: normal exit, an exception
propagating out with the state mutated so far, or non-termination. -/
inductive EnsureResult
  | done (s : CacheState)
  | exn (s : CacheState)
  | diverge
deriving DecidableEq, Repr

/-- `_ensure_capacity()` (entry-count limit only; `max_size_bytes` is `None`).
`fuel` bounds the number of loop iterations; the loop itself is unbounded, so
exhausting every `fuel` is the code looping forever. -/
def ensureCapacity (fuel : Nat) (s : CacheState) : EnsureResult :=
  if s.capacity ≤ s.cache.length ∧ s.cache ≠ [] then
    match fuel with
    | 0 => .diverge
    | fuel + 1 =>
      match evictOne s with
      | .error _ => .exn s
      | .ok s₁ => ensureCapacity fuel s₁
  else .done s

/-- The tail of `put` after capacity is ensured: store the value and refresh
the per-entry metadata. -/
def putFinish (s : CacheState) (now k v : Nat) (ttl : Option Nat) : CacheState :=
  let c := alSet s.cache k v
  let ac := if s.policy = .LFU then alSet s.accessCount k 1 else s.accessCount
  let it := alSet s.insertTime k now
  let et :=
    match ttl, s.ttl with
    | some t, _ => alSet s.expireTime k (now + t)
    | none, some t => alSet s.expireTime k (now + t)
    | none, none => s.expireTime
  { s with cache := c, accessCount := ac, insertTime := it, expireTime := et }

/-- `put(key, value, ttl)` at clock value `now`.  `none` models the call never
returning (the capacity loop spinning forever); `some s` is the state on
return or when an exception escapes the call. -/
def putOp (s : CacheState) (now k v : Nat) (ttl : Option Nat) (fuel : Nat) :
    Option CacheState :=
  if alMem s.cache k then
    let s₁ := if s.policy = .LRU then { s with cache := alMoveToEnd s.cache k } else s
    some (putFinish s₁ now k v ttl)
  else
    match ensureCapacity fuel s with
    | .done s₁ => some (putFinish s₁ now k v ttl)
    | .exn s₁ => some s₁   -- the exception aborts `put` before insertion
    | .diverge => none

/-- `get(key)` at clock value `now`: next state and returned value (`none` is
the `default` miss result). -/
def getOp (s : CacheState) (now k : Nat) : CacheState × Option Nat :=
  if alMem s.cache k then
    if isExpired s k now then (removeItem s k, none)
    else
      let s₁ :=
        match s.policy with
        | .LRU => { s with cache := alMoveToEnd s.cache k }
        | .LFU => { s with accessCount := alBump s.accessCount k }
        | _ => s
      -- `move_to_end` / the counter bump do not change the stored value
      (s₁, alGet s.cache k)
  else (s, none)

/-- `invalidate(key)`. -/
def invalidateOp (s : CacheState) (k : Nat) : CacheState :=
  if alMem s.cache k then removeItem s k else s

/-- `clear()`. -/
def clearOp (s : CacheState) : CacheState :=
  { s with cache := [], accessCount := [], insertTime := [], expireTime := [] }

/-- `touch(key)`: next state and the returned Boolean. -/
def touchOp (s : CacheState) (k : Nat) : CacheState × Bool :=
  if alMem s.cache k then
    let s₁ :=
      match s.policy with
      | .LRU => { s with cache := alMoveToEnd s.cache k }
      | .LFU => { s with accessCount := alBump s.accessCount k }
      | _ => s
    (s₁, true)
  else (s, false)

/-- One public cache operation with its clock value (and, for `put`, the
iteration budget given to the capacity loop). -/
inductive CacheOp
  | get (now k : Nat)
  | put (now k v : Nat) (ttl : Option Nat) (fuel : Nat)
  | invalidate (k : Nat)
  | clear
  | touch (k : Nat)
deriving DecidableEq, Repr

def stepOp (s : CacheState) : CacheOp → Option CacheState
  | .get now k => some (getOp s now k).1
  | .put now k v ttl fuel => putOp s now k v ttl fuel
  | .invalidate k => some (invalidateOp s k)
  | .clear => some (clearOp s)
  | .touch k => some (touchOp s k).1

/-- Run a sequence of operations; `none` as soon as one of them never returns. -/
def runOps (s : CacheState) : List CacheOp → Option CacheState
  | [] => some s
  | op :: ops =>
    match stepOp s op with
    | some s₁ => runOps s₁ ops
    | none => none

/-! ### Cache lemmas -/

@[simp] theorem cleanupMetadata_cache (s : CacheState) (k : Nat) :
    (cleanupMetadata s k).cache = s.cache := rfl

@[simp] theorem cleanupMetadata_capacity (s : CacheState) (k : Nat) :
    (cleanupMetadata s k).capacity = s.capacity := rfl

@[simp] theorem evictFinish_cache (s : CacheState) (k : Nat) :
    (evictFinish s k).cache = s.cache := by
  unfold evictFinish; split <;> rfl

@[simp] theorem evictFinish_capacity (s : CacheState) (k : Nat) :
    (evictFinish s k).capacity = s.capacity := by
  unfold evictFinish; split <;> rfl

@[simp] theorem putFinish_capacity (s : CacheState) (now k v : Nat) (ttl : Option Nat) :
    (putFinish s now k v ttl).capacity = s.capacity := rfl

@[simp] theorem putFinish_cache (s : CacheState) (now k v : Nat) (ttl : Option Nat) :
    (putFinish s now k v ttl).cache = alSet s.cache k v := rfl

theorem evictOne_ok (s s₁ : CacheState) (h : evictOne s = .ok s₁) :
    s₁.cache.length ≤ s.cache.length ∧ s₁.capacity = s.capacity := by
  unfold evictOne at h
  cases hc : s.cache with
  | nil =>
    rw [hc] at h
    cases h
    exact ⟨le_of_eq (by rw [hc]), rfl⟩
  | cons hd rest =>
    obtain ⟨k₀, v₀⟩ := hd
    rw [hc] at h
    cases hpol : s.policy <;> rw [hpol] at h
    · -- LRU
      cases h
      simp [hc, Nat.le_succ]
    · -- LFU
      cases ha : alArgmin s.accessCount <;> rw [ha] at h
      · cases h
        exact ⟨le_of_eq (by rw [hc]), rfl⟩
      · rename_i k
        cases hm : alMem ((k₀, v₀) :: rest) k <;> simp only [hm] at h
        · simp at h
        · simp only [if_true] at h
          cases h
          constructor
          · simpa [hc] using alErase_length_le s.cache k
          · simp
    · -- FIFO
      cases ha : alArgmin s.insertTime <;> rw [ha] at h
      · cases h
      · rename_i k
        cases hm : alMem ((k₀, v₀) :: rest) k <;> simp only [hm] at h
        · simp at h
        · simp only [if_true] at h
          cases h
          constructor
          · simpa [hc] using alErase_length_le s.cache k
          · simp
    · -- TTL
      cases h
      exact ⟨le_of_eq (by rw [hc]), rfl⟩

theorem ensureCapacity_done (fuel : Nat) (s s₁ : CacheState)
    (h : ensureCapacity fuel s = .done s₁) :
    (s₁.cache.length < s₁.capacity ∨ s₁.cache = []) ∧ s₁.capacity = s.capacity ∧
      s₁.cache.length ≤ s.cache.length := by
  induction fuel generalizing s with
  | zero =>
    unfold ensureCapacity at h
    split at h
    · cases h
    · rename_i hcond
      cases h
      rcases not_and_or.mp hcond with h1 | h2
      · exact ⟨Or.inl (Nat.lt_of_not_le h1), rfl, le_refl _⟩
      · exact ⟨Or.inr (not_not.mp h2), rfl, le_refl _⟩
  | succ n ih =>
    unfold ensureCapacity at h
    split at h
    · cases he : evictOne s with
      | error e => rw [he] at h; cases h
      | ok s₂ =>
        rw [he] at h
        obtain ⟨hlen, hcap⟩ := evictOne_ok s s₂ he
        obtain ⟨ha, hb, hc⟩ := ih s₂ h
        exact ⟨ha, hb.trans hcap, hc.trans hlen⟩
    · rename_i hcond
      cases h
      rcases not_and_or.mp hcond with h1 | h2
      · exact ⟨Or.inl (Nat.lt_of_not_le h1), rfl, le_refl _⟩
      · exact ⟨Or.inr (not_not.mp h2), rfl, le_refl _⟩

theorem ensureCapacity_exn (fuel : Nat) (s s₁ : CacheState)
    (h : ensureCapacity fuel s = .exn s₁) :
    s₁.cache.length ≤ s.cache.length ∧ s₁.capacity = s.capacity := by
  induction fuel generalizing s with
  | zero =>
    unfold ensureCapacity at h
    split at h <;> cases h
  | succ n ih =>
    unfold ensureCapacity at h
    split at h
    · cases he : evictOne s with
      | error e =>
        rw [he] at h
        cases h
        exact ⟨le_refl _, rfl⟩
      | ok s₂ =>
        rw [he] at h
        obtain ⟨hlen, hcap⟩ := evictOne_ok s s₂ he
        obtain ⟨ha, hb⟩ := ih s₂ h
        exact ⟨ha.trans hlen, hb.trans hcap⟩
    · cases h

theorem alMem_append_sentinel (l : List (Nat × Nat)) (k v : Nat) :
    alMem (l ++ [(k, v)]) k = true := by
  induction l with
  | nil => simp [alMem]
  | cons hd t ih =>
    simp only [List.cons_append, alMem]
    split
    · rfl
    · exact ih

theorem alGet_isSome_of_mem (l : List (Nat × Nat)) (k : Nat) (h : alMem l k = true) :
    ∃ v, alGet l k = some v := by
  induction l with
  | nil => simp [alMem] at h
  | cons hd t ih =>
    simp only [alMem] at h
    simp only [alGet]
    by_cases hk : hd.1 = k
    · exact ⟨hd.2, by simp [hk]⟩
    · simp only [hk, if_false] at h ⊢
      exact ih h

theorem alMem_moveToEnd_self (l : List (Nat × Nat)) (k : Nat) (h : alMem l k = true) :
    alMem (alMoveToEnd l k) k = true := by
  obtain ⟨v, hv⟩ := alGet_isSome_of_mem l k h
  unfold alMoveToEnd
  rw [hv]
  exact alMem_append_sentinel _ k v

theorem putOp_invariant (s s₁ : CacheState) (now k v : Nat) (ttl : Option Nat) (fuel : Nat)
    (hcap : 1 ≤ s.capacity) (hlen : s.cache.length ≤ s.capacity)
    (h : putOp s now k v ttl fuel = some s₁) :
    s₁.cache.length ≤ s₁.capacity ∧ s₁.capacity = s.capacity := by
  unfold putOp at h
  split at h
  · -- key already present: the entry count does not grow
    rename_i hmem
    cases h
    constructor
    · simp only [putFinish_cache, putFinish_capacity]
      split
      · -- LRU: move_to_end keeps the length, overwrite keeps the length
        rw [alSet_length_of_mem _ _ _ (alMem_moveToEnd_self _ _ hmem),
          alMoveToEnd_length_of_mem _ _ hmem]
        exact hlen
      · rw [alSet_length_of_mem _ _ _ hmem]
        exact hlen
    · simp only [putFinish_capacity]
      split <;> rfl
  · cases hec : ensureCapacity fuel s with
    | done s₂ =>
      rw [hec] at h
      cases h
      obtain ⟨hd, hcapeq, _⟩ := ensureCapacity_done fuel s _ hec
      constructor
      · simp only [putFinish_cache, putFinish_capacity]
        rcases hd with hlt | hnil
        · exact le_trans (alSet_length_le _ _ _) hlt
        · rw [hnil]
          simp only [alSet, List.length_cons, List.length_nil]
          rw [hcapeq]
          exact hcap
      · simp [hcapeq]
    | exn s₂ =>
      rw [hec] at h
      cases h
      obtain ⟨ha, hb⟩ := ensureCapacity_exn fuel s _ hec
      exact ⟨le_trans ha (hb ▸ hlen), hb⟩
    | diverge => rw [hec] at h; cases h

theorem removeItem_invariant (s : CacheState) (k : Nat) :
    (removeItem s k).cache.length ≤ s.cache.length ∧ (removeItem s k).capacity = s.capacity := by
  unfold removeItem
  split
  · simpa using alErase_length_le s.cache k
  · exact ⟨le_refl _, rfl⟩

theorem getOp_invariant (s : CacheState) (now k : Nat) :
    ((getOp s now k).1).cache.length ≤ s.cache.length ∧
      ((getOp s now k).1).capacity = s.capacity := by
  unfold getOp
  split
  · split
    · exact removeItem_invariant s k
    · rename_i hmem _
      cases hpol : s.policy <;> simp [alMoveToEnd_length_of_mem _ _ hmem]
  · exact ⟨le_refl _, rfl⟩

theorem touchOp_invariant (s : CacheState) (k : Nat) :
    ((touchOp s k).1).cache.length ≤ s.cache.length ∧
      ((touchOp s k).1).capacity = s.capacity := by
  unfold touchOp
  split
  · rename_i hmem
    cases hpol : s.policy <;> simp [alMoveToEnd_length_of_mem _ _ hmem]
  · exact ⟨le_refl _, rfl⟩

theorem stepOp_invariant (s s₁ : CacheState) (op : CacheOp)
    (hcap : 1 ≤ s.capacity) (hlen : s.cache.length ≤ s.capacity)
    (h : stepOp s op = some s₁) :
    s₁.cache.length ≤ s₁.capacity ∧ s₁.capacity = s.capacity := by
  cases op with
  | get now k =>
    cases h
    obtain ⟨ha, hb⟩ := getOp_invariant s now k
    exact ⟨hb ▸ le_trans ha hlen, hb⟩
  | put now k v ttl fuel => exact putOp_invariant s s₁ now k v ttl fuel hcap hlen h
  | invalidate k =>
    cases h
    unfold invalidateOp
    split
    · obtain ⟨ha, hb⟩ := removeItem_invariant s k
      exact ⟨hb ▸ le_trans ha hlen, hb⟩
    · exact ⟨hlen, rfl⟩
  | clear =>
    cases h
    simp [clearOp]
  | touch k =>
    cases h
    obtain ⟨ha, hb⟩ := touchOp_invariant s k
    exact ⟨hb ▸ le_trans ha hlen, hb⟩

theorem runOps_invariant (ops : List CacheOp) (s s₁ : CacheState)
    (hcap : 1 ≤ s.capacity) (hlen : s.cache.length ≤ s.capacity)
    (h : runOps s ops = some s₁) :
    s₁.cache.length ≤ s₁.capacity ∧ s₁.capacity = s.capacity := by
  induction ops generalizing s with
  | nil =>
    simp only [runOps] at h
    cases h
    exact ⟨hlen, rfl⟩
  | cons op ops ih =>
    simp only [runOps] at h
    cases hs : stepOp s op with
    | none => rw [hs] at h; cases h
    | some s₂ =>
      rw [hs] at h
      obtain ⟨ha, hb⟩ := stepOp_invariant s s₂ op hcap hlen hs
      obtain ⟨hc, hd⟩ := ih s₂ (hb ▸ hcap) ha h
      exact ⟨hc, hd.trans hb⟩

/-- Claim C10: for every cache configured with policy LRU, LFU or FIFO and
entry-count capacity `C ≥ 1`, after any finite sequence of
get/put/invalidate/clear/touch operations (each at an arbitrary clock value,
each put with an arbitrary iteration budget) that returns, the number of
stored entries is at most `C`. -/
theorem cache_entry_count_bounded (C : Nat) (hC : 1 ≤ C) (p : EvictionPolicy)
    (hp : p = .LRU ∨ p = .LFU ∨ p = .FIFO) (ttl : Option Nat) (ops : List CacheOp)
    (s : CacheState) (h : runOps (initCache C p ttl) ops = some s) :
    s.cache.length ≤ C := by
  have hinit : (initCache C p ttl).cache.length ≤ (initCache C p ttl).capacity := by
    simp [initCache]
  obtain ⟨ha, hb⟩ := runOps_invariant ops (initCache C p ttl) s hC hinit h
  calc s.cache.length ≤ s.capacity := ha
    _ = C := hb

/-- Witness for C10 at a concrete input: capacity 1, LRU, two puts. -/
theorem cache_entry_count_bounded_witness :
    (1 ≤ 1 ∧ (EvictionPolicy.LRU = .LRU ∨ EvictionPolicy.LRU = .LFU ∨
        EvictionPolicy.LRU = .FIFO)) ∧
      ∀ s, runOps (initCache 1 .LRU none)
          [.put 0 3 30 none 1, .put 1 4 40 none 1] = some s → s.cache.length ≤ 1 :=
  ⟨⟨le_refl 1, Or.inl rfl⟩, fun s h =>
    cache_entry_count_bounded 1 (le_refl 1) .LRU (Or.inl rfl) none _ s h⟩

theorem ensureCapacity_ttl_diverge (fuel : Nat) (s : CacheState)
    (hpol : s.policy = .TTL) (hfull : s.capacity ≤ s.cache.length) (hne : s.cache ≠ []) :
    ensureCapacity fuel s = .diverge := by
  induction fuel with
  | zero =>
    unfold ensureCapacity
    rw [if_pos ⟨hfull, hne⟩]
  | succ n ih =>
    unfold ensureCapacity
    rw [if_pos ⟨hfull, hne⟩]
    have hev : evictOne s = .ok s := by
      unfold evictOne
      cases hc : s.cache with
      | nil => exact absurd hc hne
      | cons hd rest =>
        obtain ⟨k₀, v₀⟩ := hd
        rw [hpol]
    rw [hev]
    exact ih

/-- Claim C4: the claim states that with the TTL eviction policy a `put` of a
new key into a full cache terminates and evicts the oldest-inserted entry.  In
the code `_evict_one` has no branch for the TTL policy, so `_ensure_capacity`'s
`while` loop removes nothing and never terminates: starting from an empty TTL
cache of capacity 1, the second `put` spins forever no matter how many loop
iterations (`fuel`) it is granted. -/
theorem ttl_put_never_terminates (t₁ t₂ f₁ f₂ : Nat) :
    runOps (initCache 1 .TTL none)
      [.put t₁ 1 10 none f₁, .put t₂ 2 20 none f₂] = none := by
  have h1 : putOp (initCache 1 .TTL none) t₁ 1 10 none f₁ =
      some (putFinish (initCache 1 .TTL none) t₁ 1 10 none) := by
    unfold putOp
    rw [if_neg (by simp [initCache, alMem])]
    unfold ensureCapacity
    rw [if_neg (by simp [initCache])]
  have h2 : putOp (putFinish (initCache 1 .TTL none) t₁ 1 10 none) t₂ 2 20 none f₂ = none := by
    unfold putOp
    rw [if_neg (by simp [putFinish, initCache, alSet, alMem])]
    rw [ensureCapacity_ttl_diverge f₂ _ rfl (by simp [putFinish, initCache, alSet])
      (by simp [putFinish, initCache, alSet])]
  simp only [runOps, stepOp, h1, h2]

theorem ensureCapacity_not_full (fuel : Nat) (s : CacheState)
    (h : ¬(s.capacity ≤ s.cache.length ∧ s.cache ≠ [])) :
    ensureCapacity fuel s = .done s := by
  cases fuel <;> (unfold ensureCapacity; rw [if_neg h])

theorem ensureCapacity_step (fuel : Nat) (s : CacheState)
    (h : s.capacity ≤ s.cache.length ∧ s.cache ≠ []) :
    ensureCapacity (fuel + 1) s =
      match evictOne s with
      | .error _ => .exn s
      | .ok s₁ => ensureCapacity fuel s₁ := by
  conv_lhs => unfold ensureCapacity
  rw [if_pos h]

/-- Claim C9: with LRU policy, capacity 2 and distinct keys `a`, `b`, `c`, after
`put(a); put(b); get(a); put(c)` the key `b` (oldest access) has been evicted:
`get(b)` is absent while `get(a)` and `get(c)` return their values. -/
theorem lru_scenario (a b c va vb vc t₁ t₂ t₃ t₄ t₅ t₆ t₇ f₁ f₂ f₃ : Nat)
    (hab : a ≠ b) (hac : a ≠ c) (hbc : b ≠ c) :
    ∃ s, runOps (initCache 2 .LRU none)
        [.put t₁ a va none f₁, .put t₂ b vb none f₂, .get t₃ a,
         .put t₄ c vc none (f₃ + 1)] = some s ∧
      (getOp s t₅ b).2 = none ∧
      (getOp (getOp s t₅ b).1 t₆ a).2 = some va ∧
      (getOp (getOp (getOp s t₅ b).1 t₆ a).1 t₇ c).2 = some vc := by
  have e1 : putOp (initCache 2 .LRU none) t₁ a va none f₁ =
      some ⟨2, .LRU, none, [(a,va)], [], [(a,t₁)], [], 0⟩ := by
    unfold putOp
    rw [if_neg (by simp [initCache, alMem])]
    rw [ensureCapacity_not_full _ _ (by simp [initCache])]
    simp [putFinish, initCache, alSet]
  have e2 : putOp (⟨2, .LRU, none, [(a,va)], [], [(a,t₁)], [], 0⟩ : CacheState)
      t₂ b vb none f₂ =
      some ⟨2, .LRU, none, [(a,va),(b,vb)], [], [(a,t₁),(b,t₂)], [], 0⟩ := by
    unfold putOp
    rw [if_neg (by simp [alMem, hab])]
    rw [ensureCapacity_not_full _ _ (by simp)]
    simp [putFinish, alSet, hab]
  have e3 : getOp (⟨2, .LRU, none, [(a,va),(b,vb)], [], [(a,t₁),(b,t₂)], [], 0⟩ : CacheState)
      t₃ a =
      (⟨2, .LRU, none, [(b,vb),(a,va)], [], [(a,t₁),(b,t₂)], [], 0⟩, some va) := by
    simp [getOp, alMem, isExpired, alGet, alMoveToEnd, alErase, hab]
  have hments : alMem ([(b,vb),(a,va)] : List (Nat × Nat)) c = false := by
    simp [alMem, Ne.symm hac, Ne.symm hbc, hbc, hac]
  by_cases hb0 : b = 0
  · have e4 : putOp (⟨2, .LRU, none, [(b,vb),(a,va)], [], [(a,t₁),(b,t₂)], [], 0⟩ : CacheState)
        t₄ c vc none (f₃ + 1) =
        some ⟨2, .LRU, none, [(a,va),(c,vc)], [], [(a,t₁),(b,t₂),(c,t₄)], [], 0⟩ := by
      unfold putOp
      rw [if_neg (by simp [hments])]
      rw [ensureCapacity_step _ _ (by simp)]
      have hev : evictOne (⟨2, .LRU, none, [(b,vb),(a,va)], [], [(a,t₁),(b,t₂)], [], 0⟩ :
          CacheState) =
          .ok ⟨2, .LRU, none, [(a,va)], [], [(a,t₁),(b,t₂)], [], 0⟩ := by
        simp [evictOne, evictFinish, hb0]
      rw [hev]
      have hec2 : ensureCapacity f₃
          (⟨2, .LRU, none, [(a,va)], [], [(a,t₁),(b,t₂)], [], 0⟩ : CacheState) =
          .done ⟨2, .LRU, none, [(a,va)], [], [(a,t₁),(b,t₂)], [], 0⟩ :=
        ensureCapacity_not_full _ _ (by simp)
      simp only [hec2]
      simp [putFinish, alSet, hac, Ne.symm hac, hab, hbc, Ne.symm hbc]
    refine ⟨⟨2, .LRU, none, [(a,va),(c,vc)], [], [(a,t₁),(b,t₂),(c,t₄)], [], 0⟩, ?_, ?_, ?_, ?_⟩
    · simp only [runOps, stepOp, e1, e2, e3, e4]
    · simp [getOp, alMem, hab, Ne.symm hbc, hbc]
    · simp [getOp, alMem, hab, Ne.symm hbc, hbc, isExpired, alGet, alMoveToEnd, alErase, hac]
    · simp [getOp, alMem, hab, Ne.symm hbc, hbc, isExpired, alGet, alMoveToEnd, alErase, hac,
        Ne.symm hac]
  · have e4 : putOp (⟨2, .LRU, none, [(b,vb),(a,va)], [], [(a,t₁),(b,t₂)], [], 0⟩ : CacheState)
        t₄ c vc none (f₃ + 1) =
        some ⟨2, .LRU, none, [(a,va),(c,vc)], [], [(a,t₁),(c,t₄)], [], 1⟩ := by
      unfold putOp
      rw [if_neg (by simp [hments])]
      rw [ensureCapacity_step _ _ (by simp)]
      have hev : evictOne (⟨2, .LRU, none, [(b,vb),(a,va)], [], [(a,t₁),(b,t₂)], [], 0⟩ :
          CacheState) =
          .ok ⟨2, .LRU, none, [(a,va)], [], [(a,t₁)], [], 1⟩ := by
        simp [evictOne, evictFinish, hb0, cleanupMetadata, alErase, Ne.symm hab, hab]
      rw [hev]
      have hec2 : ensureCapacity f₃
          (⟨2, .LRU, none, [(a,va)], [], [(a,t₁)], [], 1⟩ : CacheState) =
          .done ⟨2, .LRU, none, [(a,va)], [], [(a,t₁)], [], 1⟩ :=
        ensureCapacity_not_full _ _ (by simp)
      simp only [hec2]
      simp [putFinish, alSet, hac, Ne.symm hac, hab, hbc, Ne.symm hbc]
    refine ⟨⟨2, .LRU, none, [(a,va),(c,vc)], [], [(a,t₁),(c,t₄)], [], 1⟩, ?_, ?_, ?_, ?_⟩
    · simp only [runOps, stepOp, e1, e2, e3, e4]
    · simp [getOp, alMem, hab, Ne.symm hbc, hbc]
    · simp [getOp, alMem, hab, Ne.symm hbc, hbc, isExpired, alGet, alMoveToEnd, alErase, hac]
    · simp [getOp, alMem, hab, Ne.symm hbc, hbc, isExpired, alGet, alMoveToEnd, alErase, hac,
        Ne.symm hac]

/-- Witness for C9 at concrete distinct keys 1, 2, 3. -/
theorem lru_scenario_witness :
    ((1 : Nat) ≠ 2 ∧ (1 : Nat) ≠ 3 ∧ (2 : Nat) ≠ 3) ∧
      ∃ s, runOps (initCache 2 .LRU none)
          [.put 0 1 10 none 0, .put 1 2 20 none 0, .get 2 1,
           .put 3 3 30 none (0 + 1)] = some s ∧
        (getOp s 4 2).2 = none ∧
        (getOp (getOp s 4 2).1 5 1).2 = some 10 ∧
        (getOp (getOp (getOp s 4 2).1 5 1).1 6 3).2 = some 30 :=
  ⟨by decide,
    lru_scenario 1 2 3 10 20 30 0 1 2 3 4 5 6 0 0 0 (by decide) (by decide) (by decide)⟩

/-! ### Wear-leveling engine (`src/nand_defect_handling/wear_leveling.py`)

`wear_level_table` is a `numpy` `uint32` vector: the increment wraps at
`2 ^ 32`.  `np.argmin` / `np.argmax` return the first index attaining the
extremum. -/

structure WearState where
  numBlocks : Nat
  threshold : Nat   -- `wear_threshold`
  table : List Nat  -- `wear_level_table`
deriving DecidableEq, Repr

/-- `WearLevelingEngine(config)`: a zeroed table. -/
def initWearState (numBlocks threshold : Nat) : WearState :=
  { numBlocks := numBlocks, threshold := threshold, table := List.replicate numBlocks 0 }

/-- `np.argmin`: first index of the minimum (0 on an empty list). -/
def argminIdx : List Nat → Nat
  | [] => 0
  | x :: xs =>
    let j := argminIdx xs
    if x ≤ xs.getD j x then 0 else j + 1

/-- `np.argmax`: first index of the maximum (0 on an empty list). -/
def argmaxIdx : List Nat → Nat
  | [] => 0
  | x :: xs =>
    let j := argmaxIdx xs
    if xs.getD j x ≤ x then 0 else j + 1

/-- `ndarray.max()` (the table is nonempty in any configured engine). -/
def listMax (l : List Nat) : Nat := l.foldl max 0

/-- `ndarray.min()`. -/
def listMin (l : List Nat) : Nat :=
  match l with
  | [] => 0
  | x :: xs => xs.foldl min x

/-- `get_least_worn_block()` = `np.argmin(self.wear_level_table)`. -/
def getLeastWornBlock (s : WearState) : Nat := argminIdx s.table

/-- `get_most_worn_block()` = `np.argmax(self.wear_level_table)`. -/
def getMostWornBlock (s : WearState) : Nat := argmaxIdx s.table

/-- `should_perform_wear_leveling()`: `max - min > threshold`. -/
def shouldPerformWearLeveling (s : WearState) : Bool :=
  s.threshold < listMax s.table - listMin s.table

/-- `_perform_wear_leveling()`: when triggered, swap the least-worn and
most-worn counters (`temp = t[i]; t[i] = t[j]; t[j] = temp`). -/
def performWearLeveling (s : WearState) : WearState :=
  if s.threshold < listMax s.table - listMin s.table then
    let i := getLeastWornBlock s
    let j := getMostWornBlock s
    let ti := s.table.getD i 0
    let tj := s.table.getD j 0
    { s with table := (s.table.set i tj).set j ti }
  else s

/-- `update_wear_level(b)`: bounds check (`IndexError` is `none`), `uint32`
increment, then `_perform_wear_leveling`. -/
def updateWearLevel (s : WearState) (b : Nat) : Option WearState :=
  if b < s.numBlocks then
    some (performWearLeveling
      { s with table := s.table.set b ((s.table.getD b 0 + 1) % 2 ^ 32) })
  else none

/-- Claim C3: the claim states `erase_count[b]` never decreases.  The rebalance
inside `update_wear_level` swaps the least- and most-worn counters, so the
most-worn block's counter drops: with 2 blocks and threshold 1, two updates of
block 0 leave `erase_count[0] = 0` where it was 1 after the first update. -/
theorem wear_counter_decreases :
    updateWearLevel (⟨2, 1, [0, 0]⟩ : WearState) 0 = some (⟨2, 1, [1, 0]⟩ : WearState) ∧
      updateWearLevel (⟨2, 1, [1, 0]⟩ : WearState) 0 = some (⟨2, 1, [0, 2]⟩ : WearState) ∧
      (⟨2, 1, [0, 2]⟩ : WearState).table.getD 0 0 <
        (⟨2, 1, [1, 0]⟩ : WearState).table.getD 0 0 := by
  decide

theorem getD_set_le (l : List Nat) (b i v : Nat) (h : l.getD b 0 ≤ v) :
    l.getD i 0 ≤ (l.set b v).getD i 0 := by
  induction l generalizing b i with
  | nil => simp [List.getD]
  | cons x xs ih =>
    cases b with
    | zero =>
      cases i with
      | zero => simpa [List.getD] using h
      | succ i => simp [List.getD]
    | succ b =>
      cases i with
      | zero => simp [List.getD]
      | succ i =>
        simp only [List.set, List.getD_cons_succ]
        exact ih b i (by simpa [List.getD] using h)

/-- Claim C3 (amended): `erase_count[b]` is non-decreasing under
`update_wear_level` as long as the rebalance swap does not trigger, i.e. as
long as `max - min ≤ threshold` after the increment; a triggered rebalance
swaps the least- and most-worn counters and can decrease the most-worn one. -/
theorem wear_counter_monotone_without_swap (s s₁ : WearState) (b i : Nat)
    (h : updateWearLevel s b = some s₁)
    (hwrap : s.table.getD b 0 + 1 < 2 ^ 32)
    (hns : ¬ s.threshold < listMax (s.table.set b (s.table.getD b 0 + 1)) -
      listMin (s.table.set b (s.table.getD b 0 + 1))) :
    s.table.getD i 0 ≤ s₁.table.getD i 0 := by
  unfold updateWearLevel at h
  split at h
  · rw [Nat.mod_eq_of_lt hwrap] at h
    unfold performWearLeveling at h
    rw [if_neg hns] at h
    cases h
    exact getD_set_le s.table b i _ (Nat.le_succ _)
  · cases h

/-- Witness for the amended C3 at a concrete input: 2 blocks, threshold 5,
one update of block 0, which does not trigger the swap. -/
theorem wear_counter_monotone_without_swap_witness :
    (updateWearLevel (⟨2, 5, [0, 0]⟩ : WearState) 0 = some (⟨2, 5, [1, 0]⟩ : WearState) ∧
        (0 : Nat) + 1 < 2 ^ 32 ∧
        ¬ (5 : Nat) < listMax ([0, 0].set 0 (0 + 1)) - listMin ([0, 0].set 0 (0 + 1))) ∧
      (⟨2, 5, [0, 0]⟩ : WearState).table.getD 0 0 ≤
        (⟨2, 5, [1, 0]⟩ : WearState).table.getD 0 0 :=
  ⟨⟨by decide, by decide, by decide⟩,
    wear_counter_monotone_without_swap _ _ 0 0 (by decide) (by decide) (by decide)⟩

/-! ### Bad-block manager and address translation
(`src/nand_defect_handling/bad_block_management.py`, `src/nand_controller.py`) -/

/-- `self.reserved_blocks` of the controller: the fixed role-to-block map. -/
def reservedBlocks : List (String × Nat) :=
  [("metadata", 0), ("bad_block_table", 1), ("wear_leveling", 2),
   ("firmware", 3), ("log", 4)]

/-- `len(self.reserved_blocks)`. -/
def numReserved : Nat := reservedBlocks.length

/-- `get_next_good_block(b)`: forward scan from `b` inclusive, then wrap to 0;
`none` is `IndexError` (out of range) or `RuntimeError` (no good blocks). -/
def getNextGoodBlock (bad : List Bool) (b : Nat) : Option Nat :=
  if bad.length ≤ b then none
  else
    match (List.range' b (bad.length - b)).find? (fun i => !bad.getD i true) with
    | some g => some g
    | none => (List.range b).find? (fun i => !bad.getD i true)

/-- `translate_address(logical_block)` of the controller.  `user_blocks`
is `num_blocks - len(reserved_blocks)`; the `while is_bad: next_good` loop
runs its body at most once because `get_next_good_block` only ever returns a
good block, so it is unrolled here. -/
def translateAddress (bad : List Bool) (numBlocks logicalBlock : Nat) : Option Nat :=
  if numBlocks - numReserved ≤ logicalBlock then none  -- ValueError: out of range
  else
    let p := logicalBlock + numReserved
    if bad.getD p true = false then some p else getNextGoodBlock bad p

/-- Claim C5: the claim states reserved blocks are never returned by
`least_worn` (among others).  `get_least_worn_block` is `np.argmin` over the
whole wear table with no exclusion, so on a fresh table it returns block 0,
which is the reserved metadata block. -/
theorem least_worn_returns_reserved_block :
    getLeastWornBlock (initWearState 16 1000) = 0 ∧
      getMostWornBlock (initWearState 16 1000) = 0 ∧
      (reservedBlocks.map (·.2)).contains 0 = true := by
  decide

/-- Claim C5 (amended): `least_worn` and `most_worn` range over every block,
reserved ones included; `translate_address` (and through it `next_good` for
logical callers) returns a non-reserved good physical block whenever some good
block exists at or after the translated address `L + |reserved|` (when all of
those are bad, `next_good` wraps around and can reach the reserved area). -/
theorem translate_address_avoids_reserved (bad : List Bool) (numBlocks L g : Nat)
    (hlen : bad.length = numBlocks)
    (hL : L < numBlocks - numReserved)
    (hg₁ : L + numReserved ≤ g) (hg₂ : g < numBlocks)
    (hgood : bad.getD g true = false) :
    ∃ p, translateAddress bad numBlocks L = some p ∧
      numReserved ≤ p ∧ bad.getD p true = false := by
  unfold translateAddress
  rw [if_neg (not_le.mpr hL)]
  by_cases hb : bad.getD (L + numReserved) true = false
  · exact ⟨L + numReserved, by rw [if_pos hb], Nat.le_add_left _ _, hb⟩
  · rw [if_neg hb]
    unfold getNextGoodBlock
    have hR : numReserved = 5 := rfl
    have hp₀ : L + numReserved < bad.length := by
      rw [hlen, hR]
      rw [hR] at hL
      omega
    rw [if_neg (not_le.mpr hp₀)]
    have hmem : g ∈ List.range' (L + numReserved) (bad.length - (L + numReserved)) := by
      rw [List.mem_range'_1]
      constructor
      · exact hg₁
      · omega
    have hsome : ((List.range' (L + numReserved) (bad.length - (L + numReserved))).find?
        (fun i => !bad.getD i true)).isSome := by
      rw [List.find?_isSome]
      exact ⟨g, hmem, by simp only [hgood, Bool.not_false]⟩
    obtain ⟨g₁, hfind⟩ := Option.isSome_iff_exists.mp hsome
    rw [hfind]
    have hpred := @List.find?_some Nat (fun i => !bad.getD i true) g₁ _ hfind
    simp only [Bool.not_eq_eq_eq_not, Bool.not_true] at hpred
    have hmem₁ := List.mem_of_find?_eq_some hfind
    rw [List.mem_range'_1] at hmem₁
    refine ⟨g₁, rfl, le_trans (Nat.le_add_left _ _) hmem₁.1, ?_⟩
    simpa using hpred

/-- Witness for the amended C5 at a concrete input: 8 blocks, block 5 bad,
logical block 0 translates to physical block 6. -/
theorem translate_address_avoids_reserved_witness :
    ([false, false, false, false, false, true, false, false].length = 8 ∧
        (0 : Nat) < 8 - numReserved ∧ (0 : Nat) + numReserved ≤ 6 ∧ (6 : Nat) < 8 ∧
        [false, false, false, false, false, true, false, false].getD 6 true = false) ∧
      ∃ p, translateAddress [false, false, false, false, false, true, false, false] 8 0 =
          some p ∧ numReserved ≤ p ∧
          [false, false, false, false, false, true, false, false].getD p true = false :=
  ⟨⟨by decide, by decide, by decide, by decide, by decide⟩,
    translate_address_avoids_reserved _ 8 0 6 (by decide) (by decide) (by decide)
      (by decide) (by decide)⟩

/-! ### Data scrambling (`NANDController._scramble_data` / `_descramble_data`)

The keystream `np.random.RandomState(seed).bytes(len(data))` is a
deterministic function of the 32-bit seed and the length; it is abstracted
here as an arbitrary function `prng : seed → length → bytes` producing
`length` bytes, which every `RandomState` instantiation satisfies. -/

/-- `_scramble_data(data, block, page)`: derive the seed
`scrambling_seed ^ (block << 16) ^ page`, generate the keystream, XOR
byte-wise.  With scrambling disabled the data passes through. -/
def scrambleData (prng : Nat → Nat → List Nat) (scramblingSeed : Nat)
    (enabled : Bool) (data : List Nat) (block page : Nat) : List Nat :=
  if !enabled then data
  else
    let seed := scramblingSeed ^^^ (block <<< 16) ^^^ page
    let pattern := prng seed data.length
    (data.zip pattern).map fun bp => bp.1 ^^^ bp.2

/-- `_descramble_data` simply calls `_scramble_data`. -/
def descrambleData (prng : Nat → Nat → List Nat) (scramblingSeed : Nat)
    (enabled : Bool) (data : List Nat) (block page : Nat) : List Nat :=
  scrambleData prng scramblingSeed enabled data block page

theorem xor_zip_cancel (data pat : List Nat) (h : data.length ≤ pat.length) :
    (((data.zip pat).map fun bp => bp.1 ^^^ bp.2).zip pat).map
      (fun bp => bp.1 ^^^ bp.2) = data := by
  induction data generalizing pat with
  | nil => simp
  | cons d ds ih =>
    cases pat with
    | nil => simp at h
    | cons p ps =>
      simp only [List.zip_cons_cons, List.map_cons, Nat.xor_cancel_right, List.cons.injEq]
      exact ⟨trivial, ih ps (Nat.le_of_succ_le_succ h)⟩

theorem zip_map_length (data pat : List Nat) (h : pat.length = data.length) :
    ((data.zip pat).map fun bp => bp.1 ^^^ bp.2).length = data.length := by
  simp [List.length_zip, h]

/-- Claim C8: with scrambling enabled,
`descramble(scramble(x, b, p), b, p) = x` for every byte string, block and
page: the keystream depends only on `(seed, block, page)` (and the length),
and XOR-ing twice with the same keystream is the identity. -/
theorem descramble_scramble_id (prng : Nat → Nat → List Nat)
    (hlen : ∀ seed n, (prng seed n).length = n)
    (scramblingSeed : Nat) (data : List Nat) (block page : Nat) :
    descrambleData prng scramblingSeed true
      (scrambleData prng scramblingSeed true data block page) block page = data := by
  unfold descrambleData scrambleData
  simp only [Bool.not_true, Bool.false_eq_true, if_false]
  rw [zip_map_length data _ (hlen _ _)]
  exact xor_zip_cancel data _ (le_of_eq (hlen _ _).symm)

/-- Witness for C8 with a concrete keystream generator and input. -/
theorem descramble_scramble_id_witness :
    (∀ seed n, ((fun s m => List.replicate m (s % 256)) seed n : List Nat).length = n) ∧
      descrambleData (fun s m => List.replicate m (s % 256)) 2779096485 true
        (scrambleData (fun s m => List.replicate m (s % 256)) 2779096485 true
          [104, 101, 108, 108, 111] 7 3) 7 3 = [104, 101, 108, 108, 111] :=
  ⟨fun seed n => by simp,
    descramble_scramble_id (fun s m => List.replicate m (s % 256))
      (fun seed n => by simp) 2779096485 [104, 101, 108, 108, 111] 7 3⟩

/-! ### NAND controller write path (`src/nand_controller.py`)

Configuration for the embedded pipeline: compression disabled, scrambling
disabled, cache enabled — the options irrelevant to the write-error claims.
The transport (`nand_interface.write_page`) is a parameter
`transport : block → page → data → Option String`, where `some msg` is a
raised exception with message `msg`; the ECC facade's `encode` is likewise a
parameter.  The cache key `f"{block}:{page}"` is modelled by the injective
code `block * pages_per_block + page` (pages are below `pages_per_block`),
and the cached Python object by the injective byte-string code `byteCode`. -/

inductive CtrlError
  | outOfRange            -- ValueError / IndexError (bounds)
  | badBlock (b : Nat)    -- IOError "Block b is marked as bad"
  | transport (msg : String)  -- exception raised by the transport
deriving DecidableEq, Repr

structure CtrlState where
  numBlocks : Nat
  pagesPerBlock : Nat
  badTable : List Bool  -- `bad_block_manager.bad_block_table`
  wear : WearState      -- `wear_leveling_engine`
  cache : CacheState    -- `caching_system`
  writes : Nat          -- `stats["writes"]`
deriving DecidableEq, Repr

/-- `self.user_blocks = num_blocks - len(reserved_blocks)`. -/
def userBlocks (s : CtrlState) : Nat := s.numBlocks - numReserved

/-- `BadBlockManager.is_bad_block` (`none` is the `IndexError`). -/
def bbmIsBad (bad : List Bool) (b : Nat) : Option Bool :=
  if b < bad.length then some (bad.getD b true) else none

/-- `BadBlockManager.mark_bad_block` (`none` is the `IndexError`). -/
def bbmMarkBad (bad : List Bool) (b : Nat) : Option (List Bool) :=
  if b < bad.length then some (bad.set b true) else none

/-- `f"{block}:{page}"` as an injective `Nat` key. -/
def ctrlCacheKey (pagesPerBlock block page : Nat) : Nat :=
  block * pagesPerBlock + page

/-- An injective `Nat` code for the byte-string object stored in the cache. -/
def byteCode (data : List Nat) : Nat :=
  data.foldl (fun a b => a * 257 + b % 256 + 1) 0

/-- The cache invalidation loop of `mark_bad_block` (and of `erase_block`):
`invalidate(f"{block}:{page}")` for every page of the block. -/
def invalidateBlockPages (c : CacheState) (pagesPerBlock phys : Nat) : CacheState :=
  (List.range pagesPerBlock).foldl
    (fun acc p => invalidateOp acc (ctrlCacheKey pagesPerBlock phys p)) c

/-- `NANDController.mark_bad_block(block)`: an address below `user_blocks` is
treated as logical and put through `translate_address` — even when the caller
already holds a physical address.  Then the bad-block manager marks the result
and every cached page of it is invalidated.  `.error` models the exceptions of
`translate_address` (collapsed to `outOfRange`) and of the manager. -/
def ctrlMarkBadBlock (s : CtrlState) (block : Nat) : Except CtrlError CtrlState :=
  match (if block < userBlocks s then translateAddress s.badTable s.numBlocks block
         else some block) with
  | none => .error .outOfRange
  | some phys =>
    match bbmMarkBad s.badTable phys with
    | none => .error .outOfRange
    | some bad₁ =>
      .ok { s with badTable := bad₁,
                   cache := invalidateBlockPages s.cache s.pagesPerBlock phys }

/-- `sub` is a prefix of `hay` (character-wise). -/
def charsStart : List Char → List Char → Bool
  | [], _ => true
  | _ :: _, [] => false
  | a :: as, b :: bs => a == b && charsStart as bs

/-- Python's `sub in hay` on strings as character lists. -/
def charsContain (hay sub : List Char) : Bool :=
  match hay with
  | [] => charsStart sub []
  | c :: t => charsStart sub (c :: t) || charsContain t sub

/-- `str(error).lower()`. -/
def lowerChars (s : String) : List Char := s.data.map Char.toLower

/-- The bad-block indicator set of `_handle_write_error`. -/
def badBlockWriteIndicators : List String :=
  ["program fail", "status error", "timeout", "verify fail", "write protected"]

/-- `_handle_write_error(block, error)`: when the lowered message contains an
indicator, call `self.mark_bad_block(block)` (whose own exception would
replace the original one). -/
def handleWriteError (s : CtrlState) (block : Nat) (errMsg : String) :
    Except CtrlError CtrlState :=
  if badBlockWriteIndicators.any (fun ind => charsContain (lowerChars errMsg) ind.data) then
    ctrlMarkBadBlock s block
  else .ok s

/-- `_perform_advanced_wear_leveling()` with the reserved/bad guards; the page
copy `_copy_block_data` only drives the transport (outside this state), and
`copyOk` says whether it raised — on failure the swap is skipped (the
exception is caught and logged).  `.error` models the `IndexError` that
`is_bad_block` would raise on an inconsistent table. -/
def performAdvancedWearLeveling (s : CtrlState) (copyOk : Bool) :
    Except CtrlError CtrlState :=
  let leastWorn := getLeastWornBlock s.wear
  let mostWorn := getMostWornBlock s.wear
  let leastWear := s.wear.table.getD leastWorn 0
  let mostWear := s.wear.table.getD mostWorn 0
  if (reservedBlocks.map (·.2)).contains leastWorn ∨
      (reservedBlocks.map (·.2)).contains mostWorn then .ok s
  else
    match bbmIsBad s.badTable leastWorn, bbmIsBad s.badTable mostWorn with
    | some lb, some mb =>
      if lb || mb then .ok s
      else if s.wear.threshold < mostWear - leastWear then
        if copyOk then
          .ok { s with wear := { s.wear with
            table := (s.wear.table.set leastWorn mostWear).set mostWorn leastWear } }
        else .ok s
      else .ok s
    | _, _ => .error .outOfRange

/-- `NANDController.write_page(block, page, data)` with compression and
scrambling disabled and the cache enabled.  Result: `none` when the call never
returns (the cache capacity loop), otherwise `some (state, some error)` for a
raised exception or `some (state, none)` for success. -/
def writePage (transport : Nat → Nat → List Nat → Option String)
    (encode : List Nat → List Nat) (copyOk : Bool)
    (s : CtrlState) (block page : Nat) (data : List Nat) (fuel now : Nat) :
    Option (CtrlState × Option CtrlError) :=
  -- the statistics bump does not change the tables the later steps read,
  -- so those reads are written against `s` directly
  let s₀ := { s with writes := s.writes + 1 }
  match (if block < userBlocks s then translateAddress s.badTable s.numBlocks block
         else some block) with
  | none => some (s₀, some .outOfRange)  -- translate_address raised
  | some phys =>
    match bbmIsBad s.badTable phys with
    | none => some (s₀, some .outOfRange)
    | some true => some (s₀, some (.badBlock phys))
    | some false =>
      let eccData := encode data  -- `ecc_handler.encode(data_to_write)`
      match transport phys page eccData with
      | some msg =>
        -- `_handle_write_error(physical_block, e)` and then `raise`
        match handleWriteError s₀ phys msg with
        | .ok s₁ => some (s₁, some (.transport msg))
        | .error e => some (s₀, some e)
      | none =>
        match updateWearLevel s.wear phys with
        | none => some (s₀, some .outOfRange)
        | some w₁ =>
          let s₂ := { s₀ with wear := w₁ }
          match (if shouldPerformWearLeveling s₂.wear
                 then performAdvancedWearLeveling s₂ copyOk else .ok s₂) with
          | .error e => some (s₂, some e)
          | .ok s₃ =>
            let key := ctrlCacheKey s₃.pagesPerBlock phys page
            let c₁ := invalidateOp s₃.cache key
            match putOp c₁ now key (byteCode data) none fuel with
            | some c₂ => some ({ s₃ with cache := c₂ }, none)
            | none => none

/-- `NANDController.is_bad_block(block)`: translate when below `user_blocks`,
then query the manager. -/
def ctrlIsBadBlock (s : CtrlState) (block : Nat) : Option Bool :=
  match (if block < userBlocks s then translateAddress s.badTable s.numBlocks block
         else some block) with
  | none => none
  | some phys => bbmIsBad s.badTable phys

/-- The controller state of the §8 scenario: 30 blocks, fresh tables, LRU
cache, wear threshold 1000. -/
def scenarioCtrl : CtrlState :=
  { numBlocks := 30, pagesPerBlock := 2, badTable := List.replicate 30 false,
    wear := initWearState 30 1000, cache := initCache 1024 .LRU none, writes := 0 }

/-- A transport whose `write_page` always raises "Program FAIL". -/
def failingTransport : Nat → Nat → List Nat → Option String :=
  fun _ _ _ => some "Program FAIL"

/-- The failed write of claim C2: logical block 7 (physical 12), transport
raising "Program FAIL". -/
def c2Result : Option (CtrlState × Option CtrlError) :=
  writePage failingTransport (fun d => d) true scenarioCtrl 7 0 [1, 2, 3] 10 0

/-- Claim C2: the claim states that after a "program fail" write error on
logical block 7 (physical block 12) the controller marks physical block 12
bad, `is_bad(7)` is true, and a later `write_page(7, 0, …)` fails with
`BadBlock`.  In the code `_handle_write_error` passes the *physical* block
back into `mark_bad_block`, which translates it *again*: block 17 = 12 + 5 is
marked bad instead of 12, `is_bad(7)` stays false, and the retried write runs
into the transport again (a `transport` error, not `BadBlock`). -/
theorem write_error_marks_wrong_block :
    c2Result.map (fun r =>
        (r.1.badTable.getD 12 false, r.1.badTable.getD 17 false, r.2)) =
      some (false, true, some (.transport "Program FAIL")) ∧
    c2Result.map (fun r => ctrlIsBadBlock r.1 7) = some (some false) ∧
    (c2Result.bind (fun r =>
        writePage failingTransport (fun d => d) true r.1 7 0 [1, 2, 3] 10 0)).map (·.2) =
      some (some (.transport "Program FAIL")) := by
  decide

/-- The controller of claim C7: the cache already holds an entry for
(physical block 12, page 0). -/
def c7Ctrl : CtrlState :=
  { scenarioCtrl with cache :=
      { initCache 1024 .LRU none with
          cache := [(ctrlCacheKey 2 12 0, byteCode [9, 9])],
          insertTime := [(ctrlCacheKey 2 12 0, 0)] } }

/-- The failed write of claim C7: a generic transport error ("io error") that
matches no bad-block indicator. -/
def c7Result : Option (CtrlState × Option CtrlError) :=
  writePage (fun _ _ _ => some "io error") (fun d => d) true c7Ctrl 7 0 [1, 2, 3] 10 0

/-- Claim C7 (counterexample): the claim states a failed write leaves the
cache entry for that page invalidated (removed).  The failure path of
`write_page` never touches the cache: the stale entry for (block 12, page 0)
is still present, with its old value, after the error surfaces. -/
theorem failed_write_leaves_stale_cache_entry :
    c7Result.map (fun r =>
        (r.2, alMem r.1.cache.cache (ctrlCacheKey 2 12 0),
          alGet r.1.cache.cache (ctrlCacheKey 2 12 0))) =
      some (some (.transport "io error"), true, some (byteCode [9, 9])) := by
  decide

/-- Claim C7 (amended): when a `write_page` fails with a transport error whose
message matches no bad-block indicator, the controller surfaces the error and
leaves the entire cache unchanged — the pre-existing entry for that page is
neither invalidated nor repopulated; the cache is only updated on success. -/
theorem failed_write_cache_unchanged (transport : Nat → Nat → List Nat → Option String)
    (encode : List Nat → List Nat) (copyOk : Bool) (s : CtrlState)
    (block page fuel now phys : Nat) (data : List Nat) (msg : String)
    (hphys : (if block < userBlocks s then translateAddress s.badTable s.numBlocks block
        else some block) = some phys)
    (hgood : bbmIsBad s.badTable phys = some false)
    (htr : transport phys page (encode data) = some msg)
    (hnoind : badBlockWriteIndicators.any
        (fun ind => charsContain (lowerChars msg) ind.data) = false) :
    writePage transport encode copyOk s block page data fuel now =
      some ({ s with writes := s.writes + 1 }, some (.transport msg)) ∧
    ({ s with writes := s.writes + 1 } : CtrlState).cache = s.cache := by
  constructor
  · unfold writePage
    rw [hphys]
    simp only
    rw [hgood]
    simp only
    rw [htr]
    simp only
    unfold handleWriteError
    rw [hnoind]
    simp
  · rfl

/-- Witness for the amended C7 at a concrete input. -/
theorem failed_write_cache_unchanged_witness :
    ((if 7 < userBlocks c7Ctrl then translateAddress c7Ctrl.badTable c7Ctrl.numBlocks 7
        else some 7) = some 12 ∧
      bbmIsBad c7Ctrl.badTable 12 = some false ∧
      (fun _ _ _ => some "io error" : Nat → Nat → List Nat → Option String) 12 0
        ((fun d => d) [1, 2, 3]) = some "io error" ∧
      badBlockWriteIndicators.any
        (fun ind => charsContain (lowerChars "io error") ind.data) = false) ∧
    writePage (fun _ _ _ => some "io error") (fun d => d) true c7Ctrl 7 0 [1, 2, 3] 10 0 =
      some ({ c7Ctrl with writes := c7Ctrl.writes + 1 }, some (.transport "io error")) :=
  ⟨⟨by decide, by decide, rfl, by decide⟩,
    (failed_write_cache_unchanged (fun _ _ _ => some "io error") (fun d => d) true c7Ctrl
      7 0 10 0 12 [1, 2, 3] "io error" (by decide) (by decide) rfl (by decide)).1⟩

/-! ### BCH codec (`src/nand_defect_handling/bch.py`)

Bits and bytes are `Nat`s; the `numpy` `uint8` arrays holding polynomial
coefficients are lists whose entries are reduced `% 256` where the source
stores a wider value into a `uint8` array.  `np.packbits` treats any nonzero
entry as a set bit and zero-pads to a byte boundary. -/

/-- `_find_primitive_polynomial(m)`: the precomputed table (index 0 is the
constant term). -/
def primitivePoly (m : Nat) : List Nat :=
  match m with
  | 3 => [1, 1, 0, 1]
  | 4 => [1, 1, 0, 0, 1]
  | 5 => [1, 0, 1, 0, 0, 1]
  | 6 => [1, 1, 0, 0, 0, 0, 1]
  | 7 => [1, 0, 0, 1, 0, 0, 0, 1]
  | 8 => [1, 0, 1, 1, 1, 0, 0, 0, 1]
  | 9 => [1, 0, 0, 0, 1, 0, 0, 0, 0, 1]
  | 10 => [1, 0, 0, 1, 0, 0, 0, 0, 0, 0, 1]
  | 11 => [1, 0, 1, 0, 0, 0, 0, 0, 0, 0, 0, 1]
  | 12 => [1, 1, 0, 0, 1, 0, 1, 0, 0, 0, 0, 0, 1]
  | 13 => [1, 1, 0, 1, 1, 0, 0, 0, 0, 0, 0, 0, 0, 1]
  | 14 => [1, 1, 0, 0, 0, 0, 1, 0, 0, 0, 0, 0, 0, 0, 1]
  | 15 => [1, 0, 0, 0, 0, 0, 0, 0, 1, 0, 0, 0, 0, 0, 0, 1]
  | 16 => [1, 0, 1, 0, 0, 0, 0, 0, 0, 0, 0, 0, 1, 0, 0, 0, 1]
  | _ => []  -- ValueError: no precomputed polynomial

/-- `_generate_gf_tables(m, primitive_poly)`: `alpha_to[i] = α^i` and
`index_of[α^i] = i`, both of length `n + 1`.  The source stores the sentinel
`-1` in `index_of[0]`; it is never read (both `_gf_mul` and `_gf_div` shortcut
on zero operands), so `0` stands in for it here. -/
def genTables (m : Nat) : List Nat × List Nat :=
  let n := 2 ^ m - 1
  let pp := primitivePoly m
  let alpha0 := (List.replicate (n + 1) 0).set 0 1
  let index0 := List.replicate (n + 1) 0
  (List.range' 1 (n - 1)).foldl
    (fun (st : List Nat × List Nat) i =>
      let a := st.1.getD (i - 1) 0 <<< 1
      let a :=
        if a &&& (1 <<< m) ≠ 0 then
          (List.range m).foldl
            (fun acc j => if pp.getD j 0 = 1 then acc ^^^ (1 <<< j) else acc)
            (a ^^^ (1 <<< m))
        else a
      (st.1.set i a, st.2.set a i))
    (alpha0, index0)

/-- `_polynomial_multiply(a, b)`: convolution over `uint8` entries with `&`
as coefficient product and `^` as sum.  (This is only correct for 0/1
coefficients; the source applies it to GF(2^m) elements as well.) -/
def polyMulU8 (a b : List Nat) : List Nat :=
  (List.range a.length).foldl
    (fun acc i =>
      (List.range b.length).foldl
        (fun acc₂ j =>
          acc₂.set (i + j) ((acc₂.getD (i + j) 0) ^^^ ((a.getD i 0) &&& (b.getD j 0))))
        acc)
    (List.replicate (a.length + b.length - 1) 0)

/-- `_find_minimal_polynomial(root)`: start from `(x + α^root)` and multiply
conjugate factors `(x + α^(root·2^i))` for `i = 1 .. m-1`, stopping only
*after* multiplying the factor whose conjugate equals `root` again.  The
`uint8` array construction truncates the field elements to a byte. -/
def findMinimalPolynomial (m n : Nat) (alphaTo : List Nat) (root : Nat) : List Nat :=
  ((List.range' 1 (m - 1)).foldl
    (fun (st : List Nat × Bool) i =>
      if st.2 then st
      else
        let conj := (root * 2 ^ i) % n
        (polyMulU8 st.1 [1, (alphaTo.getD conj 0) % 256], conj == root))
    ([1, (alphaTo.getD (root % n) 0) % 256], false)).1

/-- `_compute_generator_polynomial()`: multiply the minimal polynomials of the
odd powers `α^1, α^3, …, α^(2t-1)` not already covered by a conjugate orbit. -/
def computeGeneratorPoly (m t n : Nat) (alphaTo : List Nat) : List Nat :=
  ((List.range t).foldl
    (fun (st : List Nat × List Nat) k =>
      let i := 2 * k + 1
      if st.2.contains i then st
      else
        (polyMulU8 st.1 (findMinimalPolynomial m n alphaTo i),
         st.2 ++ (List.range' 1 m).map fun j => (i * 2 ^ j) % n))
    ([1], [])).1

/-- A constructed `BCH(m, t)` instance (the fields computed in `__init__`). -/
structure BCHParams where
  m : Nat
  t : Nat
  n : Nat
  alphaTo : List Nat
  indexOf : List Nat
  generatorPoly : List Nat
  parityBits : Nat
  dataBits : Nat
  dataBytes : Nat
  eccBytes : Nat
deriving DecidableEq, Repr

/-- `BCH(m, t).__init__` (parameter validation aside). -/
def mkBCH (m t : Nat) : BCHParams :=
  let n := 2 ^ m - 1
  let tables := genTables m
  let g := computeGeneratorPoly m t n tables.1
  let parityBits := g.length - 1
  let dataBits := n - parityBits
  { m := m, t := t, n := n, alphaTo := tables.1, indexOf := tables.2,
    generatorPoly := g, parityBits := parityBits, dataBits := dataBits,
    dataBytes := (dataBits + 7) / 8, eccBytes := (parityBits + 7) / 8 }

/-- `_gf_mul(a, b)` via the log tables, with the zero shortcut. -/
def gfMul (p : BCHParams) (a b : Nat) : Nat :=
  if a = 0 ∨ b = 0 then 0
  else p.alphaTo.getD ((p.indexOf.getD a 0 + p.indexOf.getD b 0) % p.n) 0

/-- `_gf_div(a, b)`: `(log a - log b + n) % n`, written without subtraction
below zero (`log b ≤ n`); division by zero raises in the source and is never
reached (the only caller guards `d ≠ 0`). -/
def gfDiv (p : BCHParams) (a b : Nat) : Nat :=
  if a = 0 then 0
  else p.alphaTo.getD ((p.indexOf.getD a 0 + p.n - p.indexOf.getD b 0) % p.n) 0

/-- One byte as its 8 bits, most significant first (`np.unpackbits`). -/
def byteToBits (b : Nat) : List Nat :=
  (List.range 8).map fun i => (b >>> (7 - i)) &&& 1

/-- `np.unpackbits` over a byte string. -/
def unpackBits (data : List Nat) : List Nat := (data.map byteToBits).flatten

/-- `np.packbits`: nonzero entries count as set bits; the tail is zero-padded
to a byte boundary. -/
def packBits (bits : List Nat) : List Nat :=
  let bits01 := bits.map fun b => if b ≠ 0 then 1 else 0
  let padded := bits01 ++ List.replicate ((8 - bits01.length % 8) % 8) 0
  (List.range (padded.length / 8)).map fun i =>
    (List.range 8).foldl (fun acc j => acc * 2 + padded.getD (8 * i + j) 0) 0

/-- `_calculate_parity(data_bits)`: synthetic division of
`x^parity_bits · message(x)` by the generator polynomial; the `uint8`
remainder entries are XOR-ed with the (possibly non-binary) generator
coefficients. -/
def calcParity (p : BCHParams) (dataBits : List Nat) : List Nat :=
  let message := dataBits ++ List.replicate (p.n - p.dataBits) 0
  let g := p.generatorPoly
  let rem := (List.range p.dataBits).foldl
    (fun rem i =>
      if rem.getD i 0 ≠ 0 then
        (List.range' 1 (g.length - 1)).foldl
          (fun r j => r.set (i + j) ((r.getD (i + j) 0) ^^^ (g.getD j 0))) rem
      else rem)
    message
  rem.drop p.dataBits

/-- `BCH.encode(data)`: returns the ECC parity bytes; oversized input raises. -/
def bchEncode (p : BCHParams) (data : List Nat) : Except String (List Nat) :=
  if p.dataBytes < data.length then .error "input exceeds maximum size"
  else
    let dataBits := unpackBits data
    let padded := (dataBits.take p.dataBits) ++
      List.replicate (p.dataBits - (dataBits.take p.dataBits).length) 0
    .ok (packBits (calcParity p padded))

/-- `_calculate_syndromes(received)`: `S_i = r(α^i)` for `i = 1 .. 2t`. -/
def calcSyndromes (p : BCHParams) (received : List Nat) : List Nat :=
  (List.range (2 * p.t)).map fun i =>
    let power := i + 1
    (List.range p.n).foldl
      (fun synd j =>
        if received.getD j 0 = 1 then synd ^^^ (p.alphaTo.getD ((power * j) % p.n) 0)
        else synd)
      0

/-- `_berlekamp_massey(syndromes)`.  The source maintains the invariant
`m - L ≥ 0` at the head of each iteration, so the `Nat` subtraction is exact. -/
def berlekampMassey (p : BCHParams) (synd : List Nat) : List Nat :=
  let nn := synd.length
  let start := (List.replicate (nn + 1) 0).set 0 1
  let final := (List.range nn).foldl
    (fun (st : List Nat × Nat × List Nat) mm =>
      let C := st.1
      let L := st.2.1
      let B := st.2.2
      let d := (List.range' 1 L).foldl
        (fun dd i =>
          if C.getD i 0 ≠ 0 ∧ i ≤ mm then
            dd ^^^ gfMul p (C.getD i 0) (synd.getD (mm - i) 0)
          else dd)
        (synd.getD mm 0)
      if d = 0 then st
      else
        let T := C
        let shift := mm - L
        let C₁ := (List.range (nn + 1 - shift)).foldl
          (fun c i => c.set (i + shift) ((c.getD (i + shift) 0) ^^^ gfMul p d (B.getD i 0)))
          C
        if 2 * L ≤ mm then
          (C₁, mm + 1 - L, (List.range (nn + 1)).map fun i => gfDiv p (T.getD i 0) d)
        else (C₁, L, B))
    (start, 0, start)
  final.1.take (final.2.1 + 1)

/-- `_chien_search(error_locator_poly)`: roots of `Λ` at `α^(-i)`; `none` when
the root count disagrees with the degree (too many errors). -/
def chienSearch (p : BCHParams) (elp : List Nat) : Option (List Nat) :=
  let locs := (List.range p.n).filter fun i =>
    ((List.range elp.length).foldl
      (fun acc j =>
        let coef := elp.getD j 0
        if coef ≠ 0 then acc ^^^ gfMul p coef (p.alphaTo.getD ((j * (p.n - i)) % p.n) 0)
        else acc)
      0) = 0
  if locs.length ≠ elp.length - 1 then none else some locs

/-- `BCH.decode(encoded_data)`: returns `(corrected_data?, num_errors)`;
`.error` models the raised exceptions.  The assignment
`received_codeword[:data_bits] = data_bits_arr` is a numpy broadcast that
raises `ValueError` unless the two lengths agree exactly. -/
def bchDecode (p : BCHParams) (encoded : List Nat) :
    Except String (Option (List Nat) × Nat) :=
  if encoded.length ≤ p.eccBytes then .error "input too small"
  else
    let data := encoded.take (encoded.length - p.eccBytes)
    let ecc := encoded.drop (encoded.length - p.eccBytes)
    let dataBitsArr := (unpackBits data).take p.dataBits
    let eccBitsArr := (unpackBits ecc).take p.parityBits
    if dataBitsArr.length ≠ p.dataBits then .error "broadcast"
    else if eccBitsArr.length ≠ p.parityBits then .error "broadcast"
    else
      let received := dataBitsArr ++ eccBitsArr ++
        List.replicate (p.n - p.dataBits - p.parityBits) 0
      let synd := calcSyndromes p received
      if synd.all (· = 0) then .ok (some data, 0)
      else
        match chienSearch p (berlekampMassey p synd) with
        | none => .ok (none, p.t + 1)
        | some locs =>
          let corrected := locs.foldl
            (fun cw loc => cw.set loc ((cw.getD loc 0) ^^^ 1)) received
          let originalSize := min (data.length * 8) p.dataBits
          .ok (some (packBits ((corrected.take p.dataBits).take originalSize)), locs.length)

/-! ### ECC facade (`src/nand_defect_handling/error_correction.py`),
byte-string path -/

/-- `ECCHandler.encode` for BCH: `data + ecc_data`; exceptions become
`RuntimeError("ECC encoding failed: …")`. -/
def eccEncodeBCH (p : BCHParams) (data : List Nat) : Except String (List Nat) :=
  match bchEncode p data with
  | .error e => .error ("ECC encoding failed: " ++ e)
  | .ok parity => .ok (data ++ parity)

/-- The tail of `ECCHandler.decode` for BCH, dispatching on the codec's
result: a recovered payload is returned as-is; `None` with more than `t`
errors raises (the facade's `Uncorrectable`); otherwise the input without its
ECC bytes is returned as a fallback. -/
def bchFacadeDispatch (t eccBytes : Nat) (data : List Nat)
    (res : Option (List Nat) × Nat) : Except String (List Nat × Nat) :=
  match res with
  | (some d, numErrors) => .ok (d, numErrors)
  | (none, numErrors) =>
    if t < numErrors then .error "ECC decoding failed: too many errors to correct"
    else .ok (data.take (data.length - eccBytes), numErrors)

/-- `ECCHandler.decode` for BCH; exceptions raised by `BCH.decode` are caught
and re-raised as `ValueError("ECC decoding failed: …")`. -/
def eccDecodeBCH (p : BCHParams) (data : List Nat) : Except String (List Nat × Nat) :=
  match bchDecode p data with
  | .error e => .error ("ECC decoding failed: " ++ e)
  | .ok res => bchFacadeDispatch p.t p.eccBytes data res

/-- The length normalisation of `ECCHandler.decode` for LDPC: pad the unpacked
bits with zeros to `n`, or truncate to `n`. -/
def ldpcNormalize (n : Nat) (data : List Nat) : List Nat :=
  let bits := unpackBits data
  if bits.length < n then bits ++ List.replicate (n - bits.length) 0
  else bits.take n

/-- `ECCHandler.decode` for LDPC over bytes, parameterised by the codec
`fun bits => ldpc.decode(H, bits)` (an external floating-point belief
propagation).  `n` is `H.shape[1]`, `k` is `G.shape[1]`.  On codec failure the
facade *returns* the first `k // 8` input bytes with error count 0. -/
def eccDecodeLDPC (n k : Nat) (codec : List Nat → List Nat × Bool)
    (data : List Nat) : Except String (List Nat × Nat) :=
  let res := codec (ldpcNormalize n data)
  if res.2 = false then .ok (data.take (k / 8), 0)
  else .ok (packBits (res.1.take k), 0)

instance {ε α : Type} [DecidableEq ε] [DecidableEq α] : DecidableEq (Except ε α) := fun x y =>
  match x, y with
  | .error e₁, .error e₂ =>
    match decEq e₁ e₂ with
    | isTrue h => isTrue (by rw [h])
    | isFalse h => isFalse (by intro hh; injection hh; contradiction)
  | .ok a₁, .ok a₂ =>
    match decEq a₁ a₂ with
    | isTrue h => isTrue (by rw [h])
    | isFalse h => isFalse (by intro hh; injection hh; contradiction)
  | .error _, .ok _ => isFalse (by intro hh; exact Except.noConfusion hh)
  | .ok _, .error _ => isFalse (by intro hh; exact Except.noConfusion hh)

/-- The `BCH(4, 1)` instance (valid for the facade: `m ≥ 3`,
`1 ≤ t ≤ 2^(m-1) - 1`). -/
def bchDemo : BCHParams := mkBCH 4 1

/-- Claim C1: the claim states that for input shorter than `data_bytes`,
decoding the encoded codeword with zero (or up to `t`) bit errors returns
`(d, err_count)`.  For `BCH(4, 1)` (`data_bytes = 2`) and the one-byte input
`0x68`, the facade encodes to `data ++ parity`, but decoding that very
codeword — with no errors introduced at all — raises: `BCH.decode` assigns the
8 unpacked data bits into the `data_bits = 11`-slot prefix of the received
codeword, a numpy broadcast that raises `ValueError`, which the facade re-raises
as "ECC decoding failed".  (The same happens for every `d` shorter than
`data_bytes`, e.g. `b"hello"` under the default `BCH(8, 4)`.) -/
theorem bch_decode_encode_short_input_raises :
    (([104] : List Nat).length < bchDemo.dataBytes ∧ bchDemo.eccBytes = 1) ∧
      eccEncodeBCH bchDemo [104] = .ok [104, 128] ∧
      eccDecodeBCH bchDemo [104, 128] = .error "ECC decoding failed: broadcast" := by
  decide

/-- Claim C6 (counterexample): the claim states the facade never returns a
payload when the codec reports an unrecoverable decode.  In the LDPC branch a
codec failure (`success = False`) makes the facade return the first `k // 8`
input bytes with error count 0 instead of failing. -/
theorem ldpc_decode_failure_returns_payload :
    eccDecodeLDPC 16 8 (fun _ => (List.replicate 16 0, false)) [171, 205] =
      .ok ([171], 0) := by
  decide

/-- Claim C6 (amended): for BCH the facade returns `(payload, error_count)`
when the codec recovers and fails (`Uncorrectable`) when the codec returns
`None` with more than `t` errors (the only failure it reports); for LDPC,
however, a codec failure is not surfaced: the facade returns the first
`k // 8` raw input bytes with error count 0. -/
theorem ecc_facade_decode_behaviour :
    (∀ (t eccBytes : Nat) (data d : List Nat) (c : Nat),
        bchFacadeDispatch t eccBytes data (some d, c) = .ok (d, c)) ∧
    (∀ (t eccBytes : Nat) (data : List Nat) (c : Nat), t < c →
        bchFacadeDispatch t eccBytes data (none, c) =
          .error "ECC decoding failed: too many errors to correct") ∧
    (∀ (n k : Nat) (data bits : List Nat) (codec : List Nat → List Nat × Bool),
        codec (ldpcNormalize n data) = (bits, false) →
        eccDecodeLDPC n k codec data = .ok (data.take (k / 8), 0)) := by
  refine ⟨fun t eccBytes data d c => rfl, fun t eccBytes data c hc => ?_, ?_⟩
  · unfold bchFacadeDispatch
    simp [hc]
  · intro n k data bits codec hcodec
    unfold eccDecodeLDPC
    rw [hcodec]
    simp

/-- Witness for the amended C6 at concrete inputs. -/
theorem ecc_facade_decode_behaviour_witness :
    ((4 : Nat) < 5 ∧
        (fun _ => (List.replicate 16 0, false) : List Nat → List Nat × Bool)
          (ldpcNormalize 16 [171, 205]) = (List.replicate 16 0, false)) ∧
      bchFacadeDispatch 4 8 [1, 2] (none, 5) =
        .error "ECC decoding failed: too many errors to correct" ∧
      eccDecodeLDPC 16 8 (fun _ => (List.replicate 16 0, false)) [171, 205] =
        .ok ([171, 205].take (8 / 8), 0) :=
  ⟨⟨by decide, rfl⟩,
    ecc_facade_decode_behaviour.2.1 4 8 [1, 2] 5 (by decide),
    ecc_facade_decode_behaviour.2.2 16 8 [171, 205] (List.replicate 16 0)
      (fun _ => (List.replicate 16 0, false)) rfl⟩

end NandSim
